import Mathlib

/-!
Shallow embedding of `src/main.rs` of httpbandwidthspeedtester.

Modelling conventions:
* `Instant` timestamps are natural numbers counting nanoseconds; the test
  `state.last_second.elapsed() >= Duration::from_secs(1)` performed by a call happening at time
  `now` becomes `oneSecond ≤ now - last_second` (Nat subtraction, matching the saturating
  behaviour of `Instant::elapsed`).
* The `u64` counters of `DownloadState` are embedded as `Nat`.  Every quantity the program adds
  to them is the length of a chunk of a download whose total size is the `u64` content length,
  so the sums stay below `2 ^ 64` and wrap-around is unreachable there; the embedding uses exact
  arithmetic for the counters.  The range computation of `main` is embedded with explicit
  `% 2 ^ 64` wrap-around, because there the subtraction `(i + 1) * bytes_per_cpu - 1` really can
  wrap (namely when `bytes_per_cpu = 0`), with visible consequences.
* Fallible operations (the `?` operator, `.unwrap()`) are embedded with `Except` / `Option`; a
  panic or a propagated error is an `Except.error` / `none` result, after which nothing further
  of the embedded function body runs.
-/

namespace SpeedTest

/-- Wrap-around modulus of the `u64` machine integers used by the source. -/
def u64size : Nat := 2 ^ 64

/-- One second, in nanoseconds (`Duration::from_secs(1)`). -/
def oneSecond : Nat := 1000000000

/-- The struct `DownloadState` (src/main.rs lines 14-19).  The `VecDeque<u64>` `past_seconds` is
embedded as a `List Nat` whose head is the oldest entry (`push_back` appends at the back,
`pop_front` drops the head). -/
structure DownloadState where
  bytes_last_second : Nat
  past_seconds : List Nat
  last_second : Nat
  total_bytes_downloaded : Nat
deriving DecidableEq

/-- The function `update_state` (src/main.rs lines 24-48), the Aggregator's `record(n)`:
add the chunk length to `bytes_last_second`; if at least one second elapsed since
`last_second`, push `bytes_last_second` onto `past_seconds`, pop the oldest entry when the
queue exceeds 10 entries, zero `bytes_last_second` and restart the window at `now`; finally
add the chunk length to `total_bytes_downloaded`.  `chunk_len` is `chunk.len() as u64` and
`now` is the instant at which the call executes. -/
def update_state (chunk_len : Nat) (now : Nat) (s : DownloadState) : DownloadState :=
  let s1 : DownloadState := { s with bytes_last_second := s.bytes_last_second + chunk_len }
  let s2 : DownloadState :=
    if oneSecond ≤ now - s1.last_second then
      let pushed : List Nat := s1.past_seconds ++ [s1.bytes_last_second]
      let trimmed : List Nat := if 10 < pushed.length then pushed.tail else pushed
      { s1 with past_seconds := trimmed, bytes_last_second := 0, last_second := now }
    else s1
  { s2 with total_bytes_downloaded := s2.total_bytes_downloaded + chunk_len }

/-- The `DownloadState` created by `main` (src/main.rs lines 120-125): zero counters, empty
queue, `last_second = Instant::now()` where `t0` is the creation instant. -/
def init_state (t0 : Nat) : DownloadState :=
  { bytes_last_second := 0, past_seconds := [], last_second := t0, total_bytes_downloaded := 0 }

/-- A run of the Aggregator: a sequence of `record` calls, each given as a pair
`(chunk length, instant of the call)`, applied in order. -/
def run_updates (events : List (Nat × Nat)) (s : DownloadState) : DownloadState :=
  events.foldl (fun st e => update_state e.1 e.2 st) s

/-- The average computed by `print_loop` (src/main.rs lines 88-89) and again by `main`
(lines 156-157): `past_seconds.iter().sum() / max(past_seconds.len(), 1)` in integer
division. -/
def average (s : DownloadState) : Nat :=
  s.past_seconds.sum / max s.past_seconds.length 1

/-- The final summary line's numbers (src/main.rs lines 155-160): total bytes and the average
speed in B/s, KB/s and MB/s. -/
structure Summary where
  total_bytes : Nat
  avg_speed : Nat
  avg_speed_kb : Nat
  avg_speed_mb : Nat
deriving DecidableEq

/-- The computation of the final summary by `main` (src/main.rs lines 155-160). -/
def final_summary (s : DownloadState) : Summary :=
  let avg_speed : Nat := s.past_seconds.sum / max s.past_seconds.length 1
  { total_bytes := s.total_bytes_downloaded
    avg_speed := avg_speed
    avg_speed_kb := avg_speed / 1024
    avg_speed_mb := avg_speed / (1024 * 1024) }

/-- The per-worker chunk size `bytes_per_cpu = content_length / num_cpus` (src/main.rs
line 117), `u64` integer division. -/
def bytes_per_cpu (content_length num_cpus : Nat) : Nat :=
  content_length / num_cpus

/-- The byte ranges computed by the loop of `main` (src/main.rs lines 132-139): worker `i`
gets start `i * bytes_per_cpu` and, unless it is the last worker, end
`(i + 1) * bytes_per_cpu - 1`; the last worker's end is open (`none`, serialized as
`bytes=start-`).  All arithmetic is `u64`, hence the explicit `% u64size`; the subtraction
`- 1` is wrap-around subtraction. -/
def chunkRanges (content_length num_cpus : Nat) : List (Nat × Option Nat) :=
  (List.range num_cpus).map (fun i =>
    let c : Nat := bytes_per_cpu content_length num_cpus
    let start : Nat := i * c % u64size
    let stop : Option Nat :=
      if i = num_cpus - 1 then none
      else some (((i + 1) * c % u64size + (u64size - 1)) % u64size)
    (start, stop))

/-- Membership of a byte offset in a Range: `[start, e]` when bounded, `[start, ∞)` when the
end is open. -/
def rangeMem (b : Nat) (r : Nat × Option Nat) : Prop :=
  match r.2 with
  | some e => r.1 ≤ b ∧ b ≤ e
  | none => r.1 ≤ b

instance instDecRangeMem (b : Nat) (r : Nat × Option Nat) : Decidable (rangeMem b r) :=
  match r with
  | (st, some e) => inferInstanceAs (Decidable (st ≤ b ∧ b ≤ e))
  | (st, none) => inferInstanceAs (Decidable (st ≤ b))

/-- A run of the Aggregator where every `record` call observes an elapsed time of exactly one
second (`now = last_second + oneSecond`), so every call flushes the window; used to state the
FIFO eviction behaviour of `past_seconds`. -/
def flush_run (vs : List Nat) (s : DownloadState) : DownloadState :=
  vs.foldl (fun st v => update_state v (st.last_second + oneSecond) st) s

/-- The chunk loop of `start_download` (src/main.rs lines 70-73): each item of the body stream
either yields a chunk, given as `(length, instant of arrival)`, which is recorded via
`update_state`, or fails, in which case the error is returned by the `?` operator and the
remaining stream is not consumed. -/
def download_chunks {ε : Type} :
    List (Except ε (Nat × Nat)) → DownloadState → Except ε DownloadState
  | [], s => Except.ok s
  | Except.error e :: _, _ => Except.error e
  | Except.ok c :: rest, s => download_chunks rest (update_state c.1 c.2 s)

/-- The function `start_download` (src/main.rs lines 53-76).  `resp` is the outcome of sending
the ranged GET: either an error (propagated by `?` at line 61) or the response body, a stream
of chunk reads.  On success the worker first overwrites the shared `last_second` with the
current instant `now` (lines 65-67) and then records every chunk.  The construction of the
Range header itself (line 58) cannot fail on the digit strings the program builds, so it is
not modelled as fallible. -/
def start_download {ε : Type} (resp : Except ε (List (Except ε (Nat × Nat)))) (now : Nat)
    (s : DownloadState) : Except ε DownloadState :=
  match resp with
  | Except.error e => Except.error e
  | Except.ok chunks => download_chunks chunks { s with last_second := now }

/-- The join loop of `main` (src/main.rs lines 147-149): worker results are awaited in order
and the first error is returned by `??`, aborting `main`. -/
def join_all {ε : Type} : List (Except ε Unit) → Except ε Unit
  | [] => Except.ok ()
  | Except.error e :: _ => Except.error e
  | Except.ok _ :: rest => join_all rest

/-- The tail of `main` (src/main.rs lines 147-160): join all workers; only when every one
succeeded is the final summary computed and printed.  A `Except.error` result is `main`
returning `Err`, which terminates the process with a non-zero status and without the summary
line. -/
def finish {ε : Type} (results : List (Except ε Unit)) (s : DownloadState) :
    Except ε Summary :=
  match join_all results with
  | Except.error e => Except.error e
  | Except.ok _ => Except.ok (final_summary s)

/-- Digit accumulator of `str::parse::<u64>`: consumes decimal digits left to right, failing
on the first non-digit character. -/
def digits_value (acc : Nat) : List Char → Option Nat
  | [] => some acc
  | c :: rest => if c.isDigit then digits_value (acc * 10 + (c.toNat - 48)) rest else none

/-- The parse `content-length` value goes through in `main` (src/main.rs line 113):
`u64::from_str` accepts an optional leading plus sign followed by at least one decimal digit,
and fails when the value overflows `u64`; every failure is `none` (an `.unwrap()` panic in the
source).  The header value is given as its character list. -/
def parse_u64 (cs : List Char) : Option Nat :=
  let ds := if cs.head? = some '+' then cs.tail else cs
  if ds = [] then none
  else
    match digits_value 0 ds with
    | none => none
    | some v => if v < u64size then some v else none

/-- The content-length extraction of `main` (src/main.rs lines 112-113):
`headers.get(CONTENT_LENGTH)` yields `none` when the header is absent, and the value must
parse as a `u64`; each `.unwrap()` panic is `none`. -/
def get_content_length (header : Option (List Char)) : Option Nat :=
  match header with
  | none => none
  | some v => parse_u64 v

/-- The orchestration prefix of `main` (src/main.rs lines 111-144): obtain the content length
from the metadata response's header, then compute the worker Ranges.  When the header is
missing or invalid the `.unwrap()` at line 113 panics: the result is `none`, no Range is
computed and no ranged download request is issued (there is no fallback path). -/
def plan_download (header : Option (List Char)) (num_cpus : Nat) :
    Option (Nat × List (Nat × Option Nat)) :=
  match get_content_length header with
  | none => none
  | some content_length => some (content_length, chunkRanges content_length num_cpus)


/-- The partition property claimed of the computed Ranges for content length `L` and worker
count `N`: there are `N` Ranges; every byte of `[0, L-1]` lies in exactly one Range;
consecutive Ranges are contiguous (next start = previous end + 1); a Range is unbounded
exactly when it is the last one; and the last Range's share of the resource is
`chunkSize + L % N`, i.e. the remainder of the division goes entirely to the last worker. -/
def rangesPartitionExactly (L N : Nat) : Prop :=
  (chunkRanges L N).length = N
  ∧ (∀ b, b < L →
      ∃ i, ∃ hi : i < (chunkRanges L N).length,
        rangeMem b ((chunkRanges L N).get ⟨i, hi⟩)
        ∧ ∀ j, ∀ hj : j < (chunkRanges L N).length,
            rangeMem b ((chunkRanges L N).get ⟨j, hj⟩) → j = i)
  ∧ (∀ i, ∀ h : i + 1 < (chunkRanges L N).length,
      ∃ e, ((chunkRanges L N).get ⟨i, Nat.lt_of_succ_lt h⟩).2 = some e
        ∧ ((chunkRanges L N).get ⟨i + 1, h⟩).1 = e + 1)
  ∧ (∀ i, ∀ hi : i < (chunkRanges L N).length,
      (((chunkRanges L N).get ⟨i, hi⟩).2 = none ↔ i = N - 1))
  ∧ (∀ h : N - 1 < (chunkRanges L N).length,
      L - ((chunkRanges L N).get ⟨N - 1, h⟩).1 = L / N + L % N)

lemma chunkRanges_length (L N : Nat) : (chunkRanges L N).length = N := by
  simp [chunkRanges]

lemma chunkRanges_get {L N i : Nat} (h : i < (chunkRanges L N).length) :
    (chunkRanges L N).get ⟨i, h⟩ =
      (i * (L / N) % u64size,
       if i = N - 1 then none
       else some (((i + 1) * (L / N) % u64size + (u64size - 1)) % u64size)) := by
  simp [chunkRanges, bytes_per_cpu]

lemma wrap_sub_one {x : Nat} (h1 : 1 ≤ x) (h2 : x < u64size) :
    (x % u64size + (u64size - 1)) % u64size = x - 1 := by
  have hu : u64size = 18446744073709551616 := by norm_num [u64size]
  rw [Nat.mod_eq_of_lt h2]
  have hx : x + (u64size - 1) = (x - 1) + u64size := by omega
  rw [hx, Nat.add_mod_right, Nat.mod_eq_of_lt (by omega)]

lemma chunkRanges_get_no_wrap {L N : Nat} (hN : 1 ≤ N) (hNL : N ≤ L) (hL : L < u64size)
    {i : Nat} (h : i < (chunkRanges L N).length) :
    (chunkRanges L N).get ⟨i, h⟩ =
      (i * (L / N),
       if i = N - 1 then none else some ((i + 1) * (L / N) - 1)) := by
  have hlen := chunkRanges_length L N
  have hiN : i < N := hlen ▸ h
  have hc1 : 1 ≤ L / N := (Nat.one_le_div_iff (by omega)).mpr hNL
  have hNc : N * (L / N) ≤ L := by
    rw [Nat.mul_comm]; exact Nat.div_mul_le_self L N
  have hic : i * (L / N) < u64size :=
    lt_of_le_of_lt (le_trans (Nat.mul_le_mul_right _ (le_of_lt hiN)) hNc) hL
  have hic1 : (i + 1) * (L / N) < u64size :=
    lt_of_le_of_lt (le_trans (Nat.mul_le_mul_right _ hiN) hNc) hL
  have hx1 : 1 ≤ (i + 1) * (L / N) :=
    le_trans hc1 (Nat.le_mul_of_pos_left _ (by omega))
  rw [chunkRanges_get]
  rw [Nat.mod_eq_of_lt hic]
  by_cases hi : i = N - 1
  · simp [hi]
  · simp only [hi, if_false]
    rw [wrap_sub_one hx1 hic1]

lemma rangeMem_some {b x e : Nat} : rangeMem b (x, some e) ↔ x ≤ b ∧ b ≤ e := Iff.rfl

lemma rangeMem_none {b x : Nat} : rangeMem b (x, none) ↔ x ≤ b := Iff.rfl

/-- C1 (amended): for a content length `L` (a `u64`, so `L < 2 ^ 64`) and a worker count `N`
with `1 ≤ N ≤ L` (equivalently, `chunkSize = L / N ≥ 1`), the Ranges computed by the
orchestrator partition `[0, L-1]` exactly: every byte lies in exactly one Range, consecutive
Ranges are contiguous, only the last Range is unbounded, and the remainder of the integer
division goes entirely to the last worker.  The claim's unrestricted form, for every
`N ≥ 1`, is false: when `N > L` the chunk size is `0` and the `u64` subtraction
`(i + 1) * bytes_per_cpu - 1` wraps around, producing overlapping Ranges. -/
theorem chunk_ranges_partition_amended (L N : Nat) (hN : 1 ≤ N) (hNL : N ≤ L)
    (hL : L < u64size) : rangesPartitionExactly L N := by
  have hlen := chunkRanges_length L N
  have hc0 : 0 < L / N := (Nat.one_le_div_iff (by omega)).mpr hNL
  refine ⟨hlen, ?_, ?_, ?_, ?_⟩
  · intro b hb
    by_cases hbc : b / (L / N) < N - 1
    · refine ⟨b / (L / N), ?_, ?_, ?_⟩
      · rw [hlen]; omega
      · rw [chunkRanges_get_no_wrap hN hNL hL, if_neg (by omega), rangeMem_some]
        refine ⟨Nat.div_mul_le_self b (L / N), ?_⟩
        have h2 : b < (b / (L / N) + 1) * (L / N) :=
          (Nat.div_lt_iff_lt_mul hc0).mp (Nat.lt_succ_self _)
        omega
      · intro j hj hmem
        rw [chunkRanges_get_no_wrap hN hNL hL] at hmem
        by_cases hjl : j = N - 1
        · rw [hjl, if_pos rfl, rangeMem_none] at hmem
          have : N - 1 ≤ b / (L / N) := (Nat.le_div_iff_mul_le hc0).mpr hmem
          omega
        · rw [if_neg hjl, rangeMem_some] at hmem
          obtain ⟨hm1, hm2⟩ := hmem
          have hj1 : j ≤ b / (L / N) := (Nat.le_div_iff_mul_le hc0).mpr hm1
          have hx1 : 1 ≤ (j + 1) * (L / N) :=
            le_trans hc0 (Nat.le_mul_of_pos_left _ (by omega))
          have hj2 : b / (L / N) < j + 1 := (Nat.div_lt_iff_lt_mul hc0).mpr (by omega)
          omega
    · refine ⟨N - 1, ?_, ?_, ?_⟩
      · rw [hlen]; omega
      · rw [chunkRanges_get_no_wrap hN hNL hL, if_pos rfl, rangeMem_none]
        exact (Nat.le_div_iff_mul_le hc0).mp (by omega)
      · intro j hj hmem
        rw [chunkRanges_get_no_wrap hN hNL hL] at hmem
        by_cases hjl : j = N - 1
        · exact hjl
        · rw [if_neg hjl, rangeMem_some] at hmem
          obtain ⟨hm1, hm2⟩ := hmem
          rw [hlen] at hj
          have hx1 : 1 ≤ (j + 1) * (L / N) :=
            le_trans hc0 (Nat.le_mul_of_pos_left _ (by omega))
          have hj2 : b / (L / N) < j + 1 := (Nat.div_lt_iff_lt_mul hc0).mpr (by omega)
          omega
  · intro i h
    have hi1 : i < N - 1 := by rw [hlen] at h; omega
    have hx1 : 1 ≤ (i + 1) * (L / N) :=
      le_trans hc0 (Nat.le_mul_of_pos_left _ (by omega))
    refine ⟨(i + 1) * (L / N) - 1, ?_, ?_⟩
    · rw [chunkRanges_get_no_wrap hN hNL hL]
      dsimp only
      rw [if_neg (show i ≠ N - 1 by omega)]
    · rw [chunkRanges_get_no_wrap hN hNL hL]
      dsimp only
      omega
  · intro i hi
    rw [chunkRanges_get_no_wrap hN hNL hL]
    dsimp only
    by_cases hil : i = N - 1
    · simp [hil]
    · simp [hil]
  · intro h
    rw [chunkRanges_get_no_wrap hN hNL hL]
    dsimp only
    have h1 : (N - 1) * (L / N) + (L / N) = N * (L / N) := by
      calc (N - 1) * (L / N) + (L / N) = ((N - 1) + 1) * (L / N) := by rw [Nat.succ_mul]
      _ = N * (L / N) := by rw [Nat.sub_add_cancel hN]
    refine Nat.sub_eq_of_eq_add ?_
    calc L = N * (L / N) + L % N := (Nat.div_add_mod L N).symm
    _ = ((N - 1) * (L / N) + (L / N)) + L % N := by rw [h1]
    _ = (L / N + L % N) + (N - 1) * (L / N) := by ac_rfl

/-- C1 (witness): the spec's own example, `L = 1000000`, `N = 4`, satisfies the amended
hypotheses and the partition property. -/
theorem chunk_ranges_partition_amended_witness :
    1 ≤ 4 ∧ 4 ≤ 1000000 ∧ 1000000 < u64size ∧ rangesPartitionExactly 1000000 4 :=
  ⟨by decide, by decide, by decide,
    chunk_ranges_partition_amended 1000000 4 (by decide) (by decide) (by decide)⟩

/-- C1 (counterexample): with content length `L = 1` and worker count `N = 2` the chunk size
is `0`; worker 0's Range becomes `[0, 2^64 - 1]` by `u64` wrap-around and worker 1's Range is
`[0, ∞)`, so byte 0 is covered twice and the Ranges do not partition `[0, 0]`. -/
theorem chunk_ranges_partition_counterexample : ¬ rangesPartitionExactly 1 2 := by
  intro hpart
  obtain ⟨-, hcov, -, -, -⟩ := hpart
  obtain ⟨i, hi, hmem, huniq⟩ := hcov 0 (by decide)
  have h0 := huniq 0 (by decide) (by decide)
  have h1 := huniq 1 (by decide) (by decide)
  omega

lemma update_state_total (n now : Nat) (s : DownloadState) :
    (update_state n now s).total_bytes_downloaded = s.total_bytes_downloaded + n := by
  unfold update_state
  dsimp only
  split <;> rfl

lemma update_state_no_flush (n now : Nat) (s : DownloadState)
    (h : now - s.last_second < oneSecond) :
    update_state n now s =
      { s with bytes_last_second := s.bytes_last_second + n,
               total_bytes_downloaded := s.total_bytes_downloaded + n } := by
  unfold update_state
  dsimp only
  rw [if_neg (by omega)]

lemma update_state_flush (n now : Nat) (s : DownloadState)
    (h : oneSecond ≤ now - s.last_second) :
    update_state n now s =
      { s with
          past_seconds :=
            if 10 < (s.past_seconds ++ [s.bytes_last_second + n]).length
            then (s.past_seconds ++ [s.bytes_last_second + n]).tail
            else s.past_seconds ++ [s.bytes_last_second + n],
          bytes_last_second := 0,
          last_second := now,
          total_bytes_downloaded := s.total_bytes_downloaded + n } := by
  unfold update_state
  dsimp only
  rw [if_pos h]

lemma run_updates_cons (e : Nat × Nat) (rest : List (Nat × Nat)) (s : DownloadState) :
    run_updates (e :: rest) s = run_updates rest (update_state e.1 e.2 s) := rfl

lemma run_updates_total (events : List (Nat × Nat)) (s : DownloadState) :
    (run_updates events s).total_bytes_downloaded
      = s.total_bytes_downloaded + (events.map Prod.fst).sum := by
  induction events generalizing s with
  | nil => simp [run_updates]
  | cons e rest ih =>
      rw [run_updates_cons, ih, update_state_total]
      simp [Nat.add_assoc]

lemma run_no_flush (events : List (Nat × Nat)) (s : DownloadState)
    (h : ∀ e ∈ events, e.2 - s.last_second < oneSecond) :
    run_updates events s =
      { s with bytes_last_second := s.bytes_last_second + (events.map Prod.fst).sum,
               total_bytes_downloaded :=
                 s.total_bytes_downloaded + (events.map Prod.fst).sum } := by
  induction events generalizing s with
  | nil => simp [run_updates]
  | cons e rest ih =>
      rw [run_updates_cons, update_state_no_flush e.1 e.2 s (h e (List.mem_cons_self e rest))]
      rw [ih]
      · simp [Nat.add_assoc]
      · intro x hx
        exact h x (List.mem_cons_of_mem e hx)

lemma window_cap_step (n now : Nat) (s : DownloadState)
    (h : s.past_seconds.length ≤ 10) :
    (update_state n now s).past_seconds.length ≤ 10 := by
  unfold update_state
  dsimp only
  split
  · dsimp only
    split <;> simp_all
  · exact h

lemma flush_run_step (v : Nat) (vs : List Nat) (s : DownloadState) :
    flush_run (v :: vs) s = flush_run vs
      { s with
          past_seconds :=
            if 10 < (s.past_seconds ++ [s.bytes_last_second + v]).length
            then (s.past_seconds ++ [s.bytes_last_second + v]).tail
            else s.past_seconds ++ [s.bytes_last_second + v],
          bytes_last_second := 0,
          last_second := s.last_second + oneSecond,
          total_bytes_downloaded := s.total_bytes_downloaded + v } := by
  show flush_run vs (update_state v (s.last_second + oneSecond) s) = _
  rw [update_state_flush v (s.last_second + oneSecond) s
    (by rw [Nat.add_sub_cancel_left])]

lemma flush_run_nil (s : DownloadState) : flush_run [] s = s := rfl

/-- C2 (amended): with `bytesInCurrentWindow = 500` and elapsed time at least one second, the
next `record(n)` call pushes `500 + n` (the incoming chunk is included in the flushed window)
onto `recentWindows` — evicting the oldest entry when the queue would exceed 10 — and resets
`bytesInCurrentWindow` to `0`, not to `n`. -/
theorem record_flush_amended (n now : Nat) (s : DownloadState)
    (h500 : s.bytes_last_second = 500) (helapsed : oneSecond ≤ now - s.last_second) :
    (update_state n now s).past_seconds =
      (if 10 < (s.past_seconds ++ [500 + n]).length
       then (s.past_seconds ++ [500 + n]).tail
       else s.past_seconds ++ [500 + n])
    ∧ (update_state n now s).bytes_last_second = 0 := by
  rw [update_state_flush n now s helapsed]
  dsimp only
  rw [h500]
  exact ⟨rfl, rfl⟩

/-- C2 (witness): the amended flush behaviour at the concrete state
`bytesInCurrentWindow = 500`, empty queue, `record(100)` one second after the window start. -/
theorem record_flush_amended_witness :
    (DownloadState.mk 500 [] 0 500).bytes_last_second = 500
    ∧ oneSecond ≤ oneSecond - (DownloadState.mk 500 [] 0 500).last_second
    ∧ ((update_state 100 oneSecond (DownloadState.mk 500 [] 0 500)).past_seconds =
        (if 10 < ((DownloadState.mk 500 [] 0 500).past_seconds ++ [500 + 100]).length
         then ((DownloadState.mk 500 [] 0 500).past_seconds ++ [500 + 100]).tail
         else (DownloadState.mk 500 [] 0 500).past_seconds ++ [500 + 100])
        ∧ (update_state 100 oneSecond (DownloadState.mk 500 [] 0 500)).bytes_last_second = 0) :=
  ⟨rfl, by decide, record_flush_amended 100 oneSecond _ rfl (by decide)⟩

/-- C2 (counterexample): at `bytesInCurrentWindow = 500`, elapsed ≥ 1s, the call `record(100)`
does not push `500` and does not leave `bytesInCurrentWindow = 100`: the code pushes `600` and
resets `bytesInCurrentWindow` to `0`, because `update_state` adds the chunk before testing the
flush condition. -/
theorem record_flush_counterexample :
    ¬ ((update_state 100 oneSecond (DownloadState.mk 500 [] 0 500)).past_seconds = [500]
       ∧ (update_state 100 oneSecond (DownloadState.mk 500 [] 0 500)).bytes_last_second
           = 100) := by
  decide

/-- C3 (evidence of the divergence): a Worker mutates the shared `windowStart`.  The model of
`start_download` (src/main.rs line 66), run on a freshly initialized state with window start
`0` and a response whose body stream is empty — so no `record` call and no flush ever occurs —
returns the state with `last_second` overwritten to the instant `5` at which the response
arrived.  This contradicts the claim that only the Orchestrator ever writes that field. -/
theorem worker_overwrites_window_start :
    start_download (Except.ok ([] : List (Except Unit (Nat × Nat)))) 5 (init_state 0)
      = Except.ok (DownloadState.mk 0 [] 5 0)
    ∧ (init_state 0).last_second = 0 :=
  ⟨rfl, rfl⟩

/-- C4: for every finite sequence of `record(n)` calls on a freshly initialized state,
`totalBytesDownloaded` equals the exact sum of all `n` passed, whatever the call instants (and
hence whether or when flushes occur); it is monotonically non-decreasing under further calls;
and it is invariant under permutation of the call sequence. -/
theorem total_is_exact_sum :
    (∀ (events : List (Nat × Nat)) (t0 : Nat),
        (run_updates events (init_state t0)).total_bytes_downloaded
          = (events.map Prod.fst).sum)
    ∧ (∀ (events : List (Nat × Nat)) (e : Nat × Nat) (s : DownloadState),
        (run_updates events s).total_bytes_downloaded
          ≤ (run_updates (events ++ [e]) s).total_bytes_downloaded)
    ∧ (∀ (events evs : List (Nat × Nat)) (t0 t1 : Nat), events.Perm evs →
        (run_updates events (init_state t0)).total_bytes_downloaded
          = (run_updates evs (init_state t1)).total_bytes_downloaded) := by
  refine ⟨?_, ?_, ?_⟩
  · intro events t0
    rw [run_updates_total]
    simp [init_state]
  · intro events e s
    rw [run_updates_total, run_updates_total]
    simp [List.sum_append]
  · intro events evs t0 t1 hperm
    rw [run_updates_total, run_updates_total]
    simp [init_state]
    exact List.Perm.sum_eq (hperm.map Prod.fst)

/-- C4 (witness): two recordings of 1 and 2 bytes give total 3 in either order. -/
theorem total_is_exact_sum_witness :
    List.Perm [((1 : Nat), (0 : Nat)), (2, 0)] [((2 : Nat), (0 : Nat)), (1, 0)]
    ∧ (run_updates [((1 : Nat), (0 : Nat)), (2, 0)] (init_state 0)).total_bytes_downloaded
        = (run_updates [((2 : Nat), (0 : Nat)), (1, 0)] (init_state 5)).total_bytes_downloaded :=
  ⟨by decide, total_is_exact_sum.2.2 _ _ 0 5 (by decide)⟩

/-- C5: `len(recentWindows) ≤ 10` is preserved by every `record` call, and eviction is FIFO:
eleven consecutive flushes with values `v1..v11` starting from an empty queue leave exactly
`[v2..v11]`, with `v1` evicted. -/
theorem window_capacity_and_fifo :
    (∀ (n now : Nat) (s : DownloadState), s.past_seconds.length ≤ 10 →
        (update_state n now s).past_seconds.length ≤ 10)
    ∧ (∀ v1 v2 v3 v4 v5 v6 v7 v8 v9 v10 v11 : Nat,
        (flush_run [v1, v2, v3, v4, v5, v6, v7, v8, v9, v10, v11] (init_state 0)).past_seconds
          = [v2, v3, v4, v5, v6, v7, v8, v9, v10, v11]) := by
  refine ⟨window_cap_step, ?_⟩
  intro v1 v2 v3 v4 v5 v6 v7 v8 v9 v10 v11
  simp [flush_run_step, flush_run_nil, init_state]

/-- C5 (witness): the capacity invariant applied to a fresh state and one `record` call. -/
theorem window_capacity_and_fifo_witness :
    (init_state 0).past_seconds.length ≤ 10
    ∧ (update_state 7 0 (init_state 0)).past_seconds.length ≤ 10 :=
  ⟨by decide, window_capacity_and_fifo.1 7 0 (init_state 0) (by decide)⟩

/-- C6: `average()` equals `floor(sum(recentWindows) / max(len(recentWindows), 1))`, the
divisor is always positive (never a division by zero), and on an empty `recentWindows` the
average is `0`. -/
theorem average_no_div_zero :
    (∀ s : DownloadState, average s = s.past_seconds.sum / max s.past_seconds.length 1)
    ∧ (∀ s : DownloadState, 0 < max s.past_seconds.length 1)
    ∧ (∀ s : DownloadState, s.past_seconds = [] → average s = 0) := by
  refine ⟨fun s => rfl, fun s => lt_of_lt_of_le Nat.zero_lt_one (le_max_right _ _), ?_⟩
  intro s h
  simp [average, h]

/-- C6 (witness): the empty-queue case on the freshly initialized state. -/
theorem average_no_div_zero_witness :
    (init_state 3).past_seconds = [] ∧ average (init_state 3) = 0 :=
  ⟨rfl, average_no_div_zero.2.2 (init_state 3) rfl⟩

/-- C7: a sequence of `record` calls all made while less than one second has elapsed since
`windowStart` leaves `recentWindows` and `windowStart` unchanged and accumulates the sum of
the arguments into both `bytesInCurrentWindow` and `totalBytesDownloaded`; in particular
three calls of 100, 200 and 50 bytes within the open window of a fresh state yield
`bytesInCurrentWindow = 350`, `totalBytesDownloaded = 350` and an unchanged (empty)
`recentWindows`. -/
theorem sub_window_accumulation :
    (∀ (events : List (Nat × Nat)) (s : DownloadState),
        (∀ e ∈ events, e.2 - s.last_second < oneSecond) →
        (run_updates events s).past_seconds = s.past_seconds
        ∧ (run_updates events s).last_second = s.last_second
        ∧ (run_updates events s).bytes_last_second
            = s.bytes_last_second + (events.map Prod.fst).sum
        ∧ (run_updates events s).total_bytes_downloaded
            = s.total_bytes_downloaded + (events.map Prod.fst).sum)
    ∧ ((run_updates [(100, 0), (200, 0), (50, 0)] (init_state 0)).bytes_last_second = 350
        ∧ (run_updates [(100, 0), (200, 0), (50, 0)] (init_state 0)).total_bytes_downloaded
            = 350
        ∧ (run_updates [(100, 0), (200, 0), (50, 0)] (init_state 0)).past_seconds = []) := by
  refine ⟨?_, by decide⟩
  intro events s h
  rw [run_no_flush events s h]
  exact ⟨rfl, rfl, rfl, rfl⟩

/-- C7 (witness): one sub-window `record(100)` call on a fresh state leaves `recentWindows`
unchanged. -/
theorem sub_window_accumulation_witness :
    (∀ e ∈ [((100 : Nat), (0 : Nat))], e.2 - (init_state 0).last_second < oneSecond)
    ∧ (run_updates [((100 : Nat), (0 : Nat))] (init_state 0)).past_seconds
        = (init_state 0).past_seconds :=
  ⟨by decide, (sub_window_accumulation.1 [(100, 0)] (init_state 0) (by decide)).1⟩

lemma join_all_first_error {ε : Type} (e : ε) (k : Nat) (rest : List (Except ε Unit)) :
    join_all (List.replicate k (Except.ok ()) ++ Except.error e :: rest) = Except.error e := by
  induction k with
  | zero => rfl
  | succ m ih => simpa [List.replicate_succ, join_all] using ih

lemma join_all_error_of_mem {ε : Type} (results : List (Except ε Unit))
    (h : ∃ r ∈ results, ∃ e : ε, r = Except.error e) :
    ∃ e : ε, join_all results = Except.error e := by
  induction results with
  | nil => simp at h
  | cons r rs ih =>
      obtain ⟨x, hx, e, hxe⟩ := h
      rcases List.mem_cons.mp hx with h1 | h1
      · subst h1
        subst hxe
        exact ⟨e, rfl⟩
      · cases r with
        | error e2 => exact ⟨e2, rfl⟩
        | ok u => exact ih ⟨x, h1, e, hxe⟩

/-- C8: failures are fatal and uninterpreted, with no partial success.  (1) A worker whose
request cannot be sent returns that very error.  (2) A worker whose body stream fails after
any number of good chunks returns that very error, reading no further.  (3) `main`, joining a
worker list whose first failure is error `e`, returns exactly `e` and therefore exits with a
non-zero status.  (4) Whenever any worker failed, `main` never produces a final summary. -/
theorem fail_fast_no_partial_success :
    (∀ (ε : Type) (e : ε) (now : Nat) (s : DownloadState),
        start_download (Except.error e) now s = Except.error e)
    ∧ (∀ (ε : Type) (e : ε) (good : List (Nat × Nat)) (rest : List (Except ε (Nat × Nat)))
        (s : DownloadState),
        download_chunks (good.map Except.ok ++ Except.error e :: rest) s = Except.error e)
    ∧ (∀ (ε : Type) (e : ε) (k : Nat) (rest : List (Except ε Unit)) (s : DownloadState),
        finish (List.replicate k (Except.ok ()) ++ Except.error e :: rest) s = Except.error e)
    ∧ (∀ (ε : Type) (results : List (Except ε Unit)) (s : DownloadState),
        (∃ r ∈ results, ∃ e : ε, r = Except.error e) →
        ∀ sm : Summary, finish results s ≠ Except.ok sm) := by
  refine ⟨fun ε e now s => rfl, ?_, ?_, ?_⟩
  · intro ε e good rest s
    induction good generalizing s with
    | nil => rfl
    | cons g gs ih => simpa [download_chunks] using ih (update_state g.1 g.2 s)
  · intro ε e k rest s
    unfold finish
    rw [join_all_first_error]
  · intro ε results s h sm
    obtain ⟨e, he⟩ := join_all_error_of_mem results h
    unfold finish
    rw [he]
    exact fun hcontra => Except.noConfusion hcontra

/-- C8 (witness): a single failed worker (error value 42) yields no summary. -/
theorem fail_fast_no_partial_success_witness :
    (∃ r ∈ [(Except.error 42 : Except Nat Unit)], ∃ e : Nat, r = Except.error e)
    ∧ finish [(Except.error 42 : Except Nat Unit)] (init_state 0)
        ≠ Except.ok (final_summary (init_state 0)) :=
  ⟨⟨Except.error 42, by simp, 42, rfl⟩,
    fail_fast_no_partial_success.2.2.2 Nat _ (init_state 0)
      ⟨Except.error 42, by simp, 42, rfl⟩ (final_summary (init_state 0))⟩

lemma digits_value_none (acc : Nat) {c : Char} {cs : List Char}
    (hmem : c ∈ cs) (hdig : c.isDigit = false) : digits_value acc cs = none := by
  induction cs generalizing acc with
  | nil => simp at hmem
  | cons d rest ih =>
      rcases List.mem_cons.mp hmem with h1 | h1
      · subst h1
        simp [digits_value, hdig]
      · unfold digits_value
        split
        · exact ih _ h1
        · rfl

/-- C9: when the metadata response carries no `content-length` header, or carries a value
that does not parse as a `u64` (in particular any value containing a non-digit character
other than a leading plus sign), the orchestration aborts — `plan_download` is `none`,
modelling the fatal `.unwrap()` panic of src/main.rs line 113 — before any Range is computed,
so no ranged download request is ever issued and there is no single-stream fallback. -/
theorem size_unavailable_is_fatal :
    (∀ num_cpus : Nat, plan_download none num_cpus = none)
    ∧ (∀ (v : List Char) (num_cpus : Nat), parse_u64 v = none →
        plan_download (some v) num_cpus = none)
    ∧ (∀ (v : List Char) (c : Char), c ∈ v → c.isDigit = false → c ≠ '+' →
        parse_u64 v = none) := by
  refine ⟨fun num_cpus => rfl, ?_, ?_⟩
  · intro v num_cpus hv
    simp [plan_download, get_content_length, hv]
  · intro v c hmem hdig hplus
    unfold parse_u64
    dsimp only
    by_cases hh : v.head? = some '+'
    · rw [if_pos hh]
      have hctail : c ∈ v.tail := by
        cases v with
        | nil => simp at hmem
        | cons a t =>
            simp only [List.head?_cons, Option.some.injEq] at hh
            rcases List.mem_cons.mp hmem with h1 | h1
            · exact absurd (h1.trans hh) hplus
            · simpa using h1
      rw [if_neg (List.ne_nil_of_mem hctail)]
      rw [digits_value_none 0 hctail hdig]
    · rw [if_neg hh, if_neg (List.ne_nil_of_mem hmem)]
      rw [digits_value_none 0 hmem hdig]

/-- C9 (witness): a header value consisting of the letter `a` (code 97) does not parse, and
planning with it aborts with no Ranges. -/
theorem size_unavailable_is_fatal_witness :
    parse_u64 [Char.ofNat 97] = none ∧ plan_download (some [Char.ofNat 97]) 4 = none :=
  ⟨by decide, size_unavailable_is_fatal.2.1 [Char.ofNat 97] 4 (by decide)⟩

/-- C10: in a run where no `record` call ever observes one elapsed second — so no window is
ever closed — the final summary reports an average of 0 B/s, 0 KB/s and 0 MB/s, while its
total equals the (possibly strictly positive) sum of all recorded bytes: the final average is
computed over closed windows only and ignores the open window. -/
theorem final_average_zero_when_no_window_closed
    (t0 : Nat) (events : List (Nat × Nat))
    (h : ∀ e ∈ events, e.2 - t0 < oneSecond) :
    (final_summary (run_updates events (init_state t0))).avg_speed = 0
    ∧ (final_summary (run_updates events (init_state t0))).avg_speed_kb = 0
    ∧ (final_summary (run_updates events (init_state t0))).avg_speed_mb = 0
    ∧ (final_summary (run_updates events (init_state t0))).total_bytes
        = (events.map Prod.fst).sum
    ∧ (0 < (events.map Prod.fst).sum →
        0 < (final_summary (run_updates events (init_state t0))).total_bytes) := by
  have h0 : ∀ e ∈ events, e.2 - (init_state t0).last_second < oneSecond := h
  rw [run_no_flush events (init_state t0) h0]
  simp [final_summary, init_state]

/-- C10 (witness): a single sub-second `record(123)` call leaves a positive total but a zero
final average. -/
theorem final_average_zero_when_no_window_closed_witness :
    (∀ e ∈ [((123 : Nat), (5 : Nat))], e.2 - 0 < oneSecond)
    ∧ (final_summary (run_updates [((123 : Nat), (5 : Nat))] (init_state 0))).avg_speed = 0 :=
  ⟨by decide, (final_average_zero_when_no_window_closed 0 [(123, 5)] (by decide)).1⟩

end SpeedTest
